import Mathlib

/-!
Verification model of the Cross-Reference Indexing and Link Resolution Engine
of the agda-web-docs-lib repository.

The definitions below are shallow embeddings of the TypeScript sources:
  * the href regex and link rewriting of AgdaDocsTransformer.transformAgdaLinks
    together with findCodeBlockContainingPosition (src/types.ts),
  * the per-block line numbering of addLineNumbersToCodeBlocks (src/types.ts)
    and addLineNumbersToElementsInDocument (src/indexer.ts),
  * the mapping-table construction of AgdaDocsIndexer.buildPositionMappings
    (src/indexer.ts, the per-file try/catch version),
  * the shallow-spread copy semantics of getGlobalMappings/setGlobalMappings
    (src/indexer.ts), modelled over an explicit object heap,
  * search-entry extraction and index building of AgdaDocsSearcher
    (src/search.ts), and
  * the chunked persistence of writeSearchIndex/writeChunkedSearchIndex
    (src/search.ts), with JSON serialization failure abstracted into a
    predicate and the unbounded recursion bounded by explicit fuel.
-/

/-- Whitespace in the sense of the JavaScript regular-expression class used by
String.prototype.trim: space, tab, line terminators, vertical tab, form feed,
no-break space, BOM and the Unicode line and paragraph separators. -/
def jsIsWhitespace (c : Char) : Bool :=
  c = ' ' || c = '\t' || c = '\n' || c = '\r' ||
  c = '\x0b' || c = '\x0c' || c.val = 0xA0 || c.val = 0xFEFF ||
  c.val = 0x2028 || c.val = 0x2029

/-- JavaScript String.prototype.trim: strip leading and trailing whitespace. -/
def jsTrim (s : String) : String :=
  ⟨((s.data.dropWhile jsIsWhitespace).reverse.dropWhile jsIsWhitespace).reverse⟩

/-- Characters the JavaScript regex dot does not match (line terminators). -/
def isLineTerm (c : Char) : Bool :=
  c = '\n' || c = '\r' || c.val = 0x2028 || c.val = 0x2029

/-- The segment of a character list after its last hash character. -/
def afterLastHash (cs : List Char) : List Char :=
  (cs.reverse.takeWhile (fun c => !(c = '#'))).reverse

/-- The segment of a character list before its last hash character. -/
def beforeLastHash (cs : List Char) : List Char :=
  ((cs.reverse.dropWhile (fun c => !(c = '#'))).drop 1).reverse

/-- Group 1 of the href regex: the leftmost match of the optional lazy group
before the final hash. It is nonempty exactly when the text before the final
hash ends in the literal suffix .html preceded by at least one character, and
the dot cannot cross a line terminator, so the group starts right after the
last line terminator before that suffix. -/
def filePartOf (pre : List Char) : List Char :=
  if pre.reverse.take 5 == ['l', 'm', 't', 'h', '.'] then
    let body := (pre.reverse.drop 5).reverse
    let tail := (body.reverse.takeWhile (fun c => !(isLineTerm c))).reverse
    if tail.isEmpty then [] else tail ++ ['.', 'h', 't', 'm', 'l']
  else []

/-- Embedding of the regex match in transformAgdaLinks, the pattern
being an optional file group ending in .html, a hash, and digits anchored at
the end of the string. Returns the file part (empty string when the reference
is same-document) and the digit fragment. -/
def matchAgdaHref (href : String) : Option (String × String) :=
  let cs := href.data
  if cs.contains '#' then
    let frag := afterLastHash cs
    if !frag.isEmpty && frag.all Char.isDigit then
      some (⟨filePartOf (beforeLastHash cs)⟩, ⟨frag⟩)
    else none
  else none

/-- A hyperlink element with the attributes touched by transformAgdaLinks. -/
structure LinkElement where
  href : String
  originalHref : Option String := none
  hoverable : Bool := false
  dataPosition : Option String := none
  dataBlockId : Option String := none
  dataTargetFile : Option String := none
  classes : List String := []
  text : String := ""
deriving DecidableEq

/-- A pre.Agda code block as queried by findCodeBlockContainingPosition:
its id attribute, the id attributes of its descendants, and the data-position
attributes of its descendants. -/
structure CodeBlock where
  id : String
  anchorIds : List String
  dataPositions : List String
deriving DecidableEq

/-- A link element together with the index of the code block containing it,
if it sits inside one. -/
structure LocatedLink where
  link : LinkElement
  blockIdx : Option Nat
deriving DecidableEq

/-- Unresolved-link diagnostic collected by transformAgdaLinks. -/
structure UnmappedLink where
  href : String
  text : String
  element : LinkElement
deriving DecidableEq

/-- Position mapping of one document: anchor string to line number. -/
abbrev SubMapping := List (String × Nat)

/-- The global position mapping table: document to its sub-mapping. -/
abbrev PositionMappings := List (String × SubMapping)

/-- JavaScript truthiness lookup used by transformAgdaLinks: an entry whose
value is zero is treated the same as a missing entry. -/
def truthyLookup (sub : SubMapping) (pos : String) : Option Nat :=
  match sub.lookup pos with
  | some n => if n = 0 then none else some n
  | none => none

/-- The mappings of the current file, or an empty object when the current
file is unset or has no entry. -/
def currentMappings (mm : PositionMappings) (currentFile : String) : SubMapping :=
  if currentFile = "" then [] else (mm.lookup currentFile).getD []

/-- Whether a block contains an element whose id, or whose data-position
attribute, equals the given position (the two querySelector calls). -/
def blockContains (pos : String) (b : CodeBlock) : Bool :=
  b.anchorIds.contains pos || b.dataPositions.contains pos

/-- Embedding of findCodeBlockContainingPosition: with at most one block the
first block (or nothing) is returned outright; otherwise the first block
containing the position by id or data-position, falling back to the first
block. -/
def findCodeBlockContainingPosition (blocks : List CodeBlock) (pos : String) :
    Option CodeBlock :=
  if blocks.length ≤ 1 then blocks.head?
  else
    match blocks.find? (blockContains pos) with
    | some b => some b
    | none => blocks.head?

/-- classList.add: append the class unless already present. -/
def addClass (cls : List String) (c : String) : List String :=
  if cls.contains c then cls else cls ++ [c]

/-- Record a data-position attribute inside the block containing the link,
the side effect of setAttribute on a link that sits inside a pre.Agda block. -/
def addDataPos (blocks : List CodeBlock) (bi : Option Nat) (pos : String) :
    List CodeBlock :=
  match bi with
  | none => blocks
  | some j =>
      blocks.enum.map (fun p =>
        if p.1 = j then
          { p.2 with dataPositions := p.2.dataPositions ++ [pos] }
        else p.2)

/-- Diagnostic for an unresolved link, with the textContent fallback. -/
def mkUnmapped (link : LinkElement) : UnmappedLink :=
  ⟨link.href, if link.text = "" then "[No text content]" else link.text, link⟩

/-- Embedding of the body of the links.forEach callback in transformAgdaLinks
for one link: returns the updated link, the updated block list (rewriting a
link lying inside a block adds its data-position attribute there), and an
optional unresolved-link diagnostic. -/
def transformOneLink (mm : PositionMappings) (currentFile : String)
    (blocks : List CodeBlock) (ll : LocatedLink) :
    LocatedLink × List CodeBlock × Option UnmappedLink :=
  match matchAgdaHref ll.link.href with
  | none => (ll, blocks, none)
  | some (filePart, position) =>
    if filePart = "" then
      match truthyLookup (currentMappings mm currentFile) position with
      | some lineNumber =>
          let blockId :=
            match findCodeBlockContainingPosition blocks position with
            | some b => b.id
            | none => "B1"
          let link :=
            { ll.link with
              originalHref := some ll.link.href
              href := "#" ++ blockId ++ "-L" ++ Nat.repr lineNumber
              hoverable := true
              dataPosition := some position
              dataBlockId := some blockId
              classes := addClass ll.link.classes "type-hoverable" }
          (⟨link, ll.blockIdx⟩, addDataPos blocks ll.blockIdx position, none)
      | none => (ll, blocks, some (mkUnmapped ll.link))
    else
      match mm.lookup filePart with
      | some sub =>
        match truthyLookup sub position with
        | some lineNumber =>
            let link :=
              { ll.link with
                originalHref := some ll.link.href
                href := filePart ++ "#B1-L" ++ Nat.repr lineNumber
                hoverable := true
                dataPosition := some position
                dataTargetFile := some filePart
                classes := addClass ll.link.classes "type-hoverable" }
            (⟨link, ll.blockIdx⟩, addDataPos blocks ll.blockIdx position, none)
        | none => (ll, blocks, some (mkUnmapped ll.link))
      | none => (ll, blocks, some (mkUnmapped ll.link))

/-- Embedding of transformAgdaLinks over a whole document: the links are
processed in document order, threading the block state (because rewritten
links acquire data-position attributes visible to later queries) and
collecting the unresolved-link diagnostics in order. -/
def transformAgdaLinks (mm : PositionMappings) (currentFile : String)
    (blocks : List CodeBlock) (links : List LocatedLink) :
    List LocatedLink × List CodeBlock × List UnmappedLink :=
  match links with
  | [] => ([], blocks, [])
  | ll :: rest =>
      let r := transformOneLink mm currentFile blocks ll
      let rec' := transformAgdaLinks mm currentFile r.2.1 rest
      (r.1 :: rec'.1, rec'.2.1,
        match r.2.2 with
        | some d => d :: rec'.2.2
        | none => rec'.2.2)

/-- The filter with index over the split lines in addLineNumbersToCodeBlocks,
written as a recursion carrying the running index and the total length: a
segment is dropped exactly when it is the final one and trims to empty. -/
def actualLinesAux (len : Nat) : Nat → List String → List String
  | _, [] => []
  | i, x :: xs =>
      if i = len - 1 && jsTrim x == "" then actualLinesAux len (i + 1) xs
      else x :: actualLinesAux len (i + 1) xs

/-- The actualLines array of addLineNumbersToCodeBlocks: every split segment
except a trailing empty one. -/
def actualLines (lines : List String) : List String :=
  actualLinesAux lines.length 0 lines

/-- One rendered line of a code block: its 1-based number, its anchor id, its
content id and its rendered content. -/
structure RenderedLine where
  lineNum : Nat
  lineId : String
  contentId : String
  content : String
deriving DecidableEq

/-- Embedding of the per-line body of addLineNumbersToCodeBlocks for the block
with the given id: lines are numbered 1-based in order, carry composite ids,
and a line trimming to empty is rendered as a non-breaking-space entity. -/
def addLineNumbersToCodeBlocks (blockId : String) (lines : List String) :
    List RenderedLine :=
  (actualLines lines).enum.map (fun p =>
    let lineNum := p.1 + 1
    { lineNum := lineNum
      lineId := blockId ++ "-L" ++ Nat.repr lineNum
      contentId := blockId ++ "-LC" ++ Nat.repr lineNum
      content := if jsTrim p.2 == "" then "&nbsp;" else p.2 })

/-- Whether the last split segment trims to empty. -/
def lastBlank (lines : List String) : Bool :=
  match lines.getLast? with
  | some l => jsTrim l == ""
  | none => false

/-- Embedding of the per-file loop of AgdaDocsIndexer.buildPositionMappings
(the per-file try/catch version): reading and parsing is abstracted into a
function returning none on failure, and extraction of a parsed document's
sub-mapping is abstracted into a function parameter; a failing document is
caught and skipped, every other document stores its sub-mapping. -/
def buildPositionMappings {α : Type} (files : List String)
    (readParse : String → Option α) (extract : α → SubMapping) :
    PositionMappings :=
  files.foldl (fun table f =>
    match readParse f with
    | none => table
    | some d => table ++ [(f, extract d)]) []

/-- Heap address of a JavaScript object. -/
abbrev Addr := Nat

/-- A heap of JavaScript objects as used by the global-mapping transfer:
table objects hold document keys bound to references to sub-map objects,
sub-map objects hold anchor-to-line entries. The next field is the next
fresh address. -/
structure JSHeap where
  tables : List (Addr × List (String × Addr))
  subs : List (Addr × SubMapping)
  next : Addr
deriving DecidableEq

/-- Lookup of an object by address. -/
def lookupObj {β : Type} (l : List (Addr × β)) (a : Addr) : Option β :=
  l.lookup a

/-- Replace the object at an address by applying a function to it. -/
def updateObj {β : Type} (l : List (Addr × β)) (a : Addr) (f : β → β) :
    List (Addr × β) :=
  l.map (fun p => if p.1 = a then (p.1, f p.2) else p)

/-- Assignment to a key of a record object: overwrite in place if the key is
present, append otherwise. -/
def setRecordKey {β : Type} (m : List (String × β)) (k : String) (v : β) :
    List (String × β) :=
  if (m.lookup k).isSome then
    m.map (fun p => if p.1 = k then (p.1, v) else p)
  else m ++ [(k, v)]

/-- The object-spread copy made by getGlobalMappings and setGlobalMappings:
a fresh table object whose entries are the same key-to-reference pairs; the
referenced sub-map objects are shared, not copied. -/
def spreadTable (h : JSHeap) (src : Addr) : JSHeap × Addr :=
  let entries := (lookupObj h.tables src).getD []
  ({ h with tables := (h.next, entries) :: h.tables, next := h.next + 1 }, h.next)

/-- Embedding of AgdaDocsIndexer.getGlobalMappings: return a spread copy of
the internal table object. -/
def getGlobalMappings (h : JSHeap) (globalAddr : Addr) : JSHeap × Addr :=
  spreadTable h globalAddr

/-- Embedding of AgdaDocsIndexer.setGlobalMappings: the internal table
becomes a spread copy of the incoming table object. -/
def setGlobalMappings (h : JSHeap) (incoming : Addr) : JSHeap × Addr :=
  spreadTable h incoming

/-- Mutation of a nested sub-map through a table reference, as in assigning
to table entry doc's entry anchor. -/
def mutateSubEntry (h : JSHeap) (t : Addr) (doc anchor : String) (v : Nat) :
    JSHeap :=
  match lookupObj h.tables t with
  | none => h
  | some entries =>
    match entries.lookup doc with
    | none => h
    | some subAddr =>
        { h with subs := updateObj h.subs subAddr (fun m => setRecordKey m anchor v) }

/-- Mutation of a table object's own key, as in assigning a sub-map reference
to table entry doc. -/
def mutateTableKey (h : JSHeap) (t : Addr) (doc : String) (subAddr : Addr) :
    JSHeap :=
  { h with tables := updateObj h.tables t (fun entries => setRecordKey entries doc subAddr) }

/-- The value of a table object with its sub-map references dereferenced. -/
def resolveTable (h : JSHeap) (t : Addr) : List (String × SubMapping) :=
  ((lookupObj h.tables t).getD []).map
    (fun p => (p.1, (lookupObj h.subs p.2).getD []))

/-- Kind of a search entry. -/
inductive EntryType
  | code
  | header
  | module
deriving DecidableEq

/-- A search entry as produced by AgdaDocsSearcher. -/
structure SearchEntry where
  type : EntryType
  content : String
  lineNumber : Option Nat := none
  position : Option String := none
  context : Option String := none
deriving DecidableEq

/-- A rendered code line as seen by extractSearchEntriesFromFile: its id
attribute, its text content, and the descendant elements carrying an id
attribute, each with its id and text content. -/
structure CodeLine where
  id : String
  text : String
  identifiers : List (String × String)
deriving DecidableEq

/-- A placeholder line used only to give List.getD a default. -/
def dummyLine : CodeLine := ⟨"", "", []⟩

/-- Digits of a decimal literal folded into a number, as parseInt does on a
string of digits. -/
def digitsToNat (ds : List Char) : Nat :=
  ds.foldl (fun a c => a * 10 + (c.toNat - 48)) 0

/-- Attempt to match the line-id pattern at the head of the character list:
letter B, one or more digits, a dash, letters L and C, then the captured
digits. -/
def lineIdMatchHere (cs : List Char) : Option Nat :=
  match cs with
  | 'B' :: rest =>
    let d1 := rest.takeWhile Char.isDigit
    let rest1 := rest.dropWhile Char.isDigit
    if d1.isEmpty then none
    else
      match rest1 with
      | '-' :: 'L' :: 'C' :: rest2 =>
        let d2 := rest2.takeWhile Char.isDigit
        if d2.isEmpty then none else some (digitsToNat d2)
      | _ => none
  | _ => none

/-- Leftmost match of the line-id pattern anywhere in the list. -/
def lineIdSearch : List Char → Option Nat
  | [] => none
  | c :: cs =>
    match lineIdMatchHere (c :: cs) with
    | some n => some n
    | none => lineIdSearch cs

/-- Embedding of the line-number parse in extractSearchEntriesFromFile: the
unanchored regex capturing the digits after the LC of a composite line id. -/
def lineIdToNum (s : String) : Option Nat :=
  lineIdSearch s.data

/-- Reverse value lookup of the anchor attributed to a line: the first key of
the sub-mapping whose value equals the line number. -/
def positionForLine (pm : SubMapping) (lineNumber : Nat) : Option String :=
  (pm.find? (fun p => p.2 = lineNumber)).map Prod.fst

/-- Embedding of the per-line body of the allLines.forEach callback in
extractSearchEntriesFromFile: the code entry for the line itself followed by
one code entry per non-numeric identifier inside it, with the context built
from the immediately adjacent lines. -/
def entriesForLine (pm : SubMapping) (allLines : List CodeLine) (i : Nat)
    (line : CodeLine) : List SearchEntry :=
  match lineIdToNum line.id with
  | none => []
  | some lineNumber =>
    let lineContent := jsTrim line.text
    if lineContent = "" then []
    else
      let contextBefore :=
        if 0 < i then jsTrim (allLines.getD (i - 1) dummyLine).text else ""
      let contextAfter :=
        if i < allLines.length - 1 then jsTrim (allLines.getD (i + 1) dummyLine).text
        else ""
      let fullContext :=
        String.intercalate "\n"
          (([contextBefore, lineContent, contextAfter]).filter (fun l => !(l = "")))
      { type := EntryType.code, content := lineContent,
        lineNumber := some lineNumber, context := some fullContext } ::
      line.identifiers.filterMap (fun idf =>
        if idf.1 = "" || idf.1.data.all Char.isDigit then none
        else
          let content := jsTrim idf.2
          if content = "" then none
          else
            some { type := EntryType.code, content := content,
                   lineNumber := some lineNumber,
                   position := positionForLine pm lineNumber,
                   context := some fullContext })

/-- Embedding of the per-block loop of extractSearchEntriesFromFile. -/
def extractBlockEntries (pm : SubMapping) (allLines : List CodeLine) :
    List SearchEntry :=
  (allLines.enum.map (fun p => entriesForLine pm allLines p.1 p.2)).flatten

/-- A parsed document as consumed by the search extractor: the code lines of
each pre.Agda block and the text of each heading element. -/
structure HtmlDoc where
  blocks : List (List CodeLine)
  headers : List String
deriving DecidableEq

/-- Embedding of the header loop of extractSearchEntriesFromFile. -/
def headerEntry (text : String) : Option SearchEntry :=
  let content := jsTrim text
  if content = "" then none
  else some { type := EntryType.header, content := content, context := some content }

/-- The filename without directories and without its .html extension, as
path.basename with the .html suffix argument produces for the scanned files. -/
def moduleNameOf (file : String) : String :=
  if file.data.reverse.take 5 == ['l', 'm', 't', 'h', '.'] then
    ⟨(file.data.reverse.drop 5).reverse⟩
  else file

/-- Embedding of extractSearchEntriesFromFile: on a read or parse failure the
catch clause returns the empty list; otherwise the module entry comes first,
followed by the code entries of every block and the header entries. -/
def extractSearchEntriesFromFile (readParse : String → Option HtmlDoc)
    (file : String) (pm : SubMapping) : List SearchEntry :=
  match readParse file with
  | none => []
  | some d =>
      { type := EntryType.module, content := moduleNameOf file } ::
      ((d.blocks.map (extractBlockEntries pm)).flatten ++
        d.headers.filterMap headerEntry)

/-- Embedding of AgdaDocsSearcher.buildSearchIndex: per file the extracted
entries are stored under the file key exactly when the list is nonempty. -/
def buildSearchIndex (readParse : String → Option HtmlDoc)
    (mappings : PositionMappings) (files : List String) :
    List (String × List SearchEntry) :=
  files.foldl (fun index file =>
    let entries :=
      extractSearchEntriesFromFile readParse file ((mappings.lookup file).getD [])
    if 0 < entries.length then index ++ [(file, entries)] else index) []

/-- The search index: document keys in insertion order, each with its entry
list. -/
abbrev SearchIndex := List (String × List SearchEntry)

/-- The maximum number of entries accumulated into one chunk. -/
def maxEntriesPerChunk : Nat := 1000

/-- The inner and outer chunking loops of writeChunkedSearchIndex, carrying
the running entry count and the current chunk (reversed): a file is added
while the count is below the cap and adding it would not push a nonempty
chunk over the cap; otherwise the chunk is closed and the file opens the next
chunk. -/
def chunkAux (cnt : Nat) (cur : SearchIndex) : SearchIndex → List SearchIndex
  | [] => [cur.reverse]
  | (f, es) :: rest =>
      if cnt < maxEntriesPerChunk &&
          !(decide (maxEntriesPerChunk < cnt + es.length) && !cur.isEmpty) then
        chunkAux (cnt + es.length) ((f, es) :: cur) rest
      else
        cur.reverse :: chunkAux es.length [(f, es)] rest

/-- The chunk groups computed by writeChunkedSearchIndex: no chunk at all for
an empty index, otherwise the loop starting from an empty chunk. -/
def chunkGroups (index : SearchIndex) : List SearchIndex :=
  match index with
  | [] => []
  | _ => chunkAux 0 [] index

/-- The chunk names paired with their contents, in order. -/
def namedChunks (pre : String) (index : SearchIndex) :
    List (String × SearchIndex) :=
  (chunkGroups index).enum.map (fun p => (pre ++ "-" ++ Nat.repr p.1, p.2))

/-- Total entry count of an index, as the metadata records it. -/
def totalEntries (index : SearchIndex) : Nat :=
  (index.map (fun p => p.2.length)).sum

/-- One file written while persisting the search index: the whole index, the
chunk metadata, or one chunk artifact. -/
inductive FileWrite
  | whole (content : SearchIndex)
  | meta (chunks : List String) (totalFiles totalEntries : Nat)
  | chunk (name : String) (content : SearchIndex)
deriving DecidableEq

/-- Embedding of writeChunkedSearchIndex, with JSON.stringify success
abstracted into the fits predicate and the unbounded recursion bounded by
fuel: the metadata file is written first (overwriting any metadata written by
an enclosing call would come before it in the returned write list), then each
chunk is serialized and written, a chunk that fails to serialize being split
further by a recursive call in its place. Returns none when the fuel runs
out, which mirrors the unbounded recursion of the source on an input whose
chunks never fit. -/
def writeChunkedSearchIndex (fits : SearchIndex → Bool) :
    Nat → String → SearchIndex → Option (List FileWrite)
  | 0, _, _ => none
  | fuel + 1, pre, index =>
    let named := namedChunks pre index
    let chunkWrites :=
      named.foldr (fun nc acc =>
        acc.bind (fun ws =>
          if fits nc.2 then some (FileWrite.chunk nc.1 nc.2 :: ws)
          else
            (writeChunkedSearchIndex fits fuel nc.1 nc.2).map
              (fun ws1 => ws1 ++ ws))) (some [])
    chunkWrites.map
      (fun ws => FileWrite.meta (named.map Prod.fst) index.length (totalEntries index) :: ws)

/-- Embedding of writeSearchIndex: serialize the whole index as one artifact,
falling back to chunked persistence when serialization fails. -/
def writeSearchIndex (fits : SearchIndex → Bool) (fuel : Nat)
    (index : SearchIndex) : Option (List FileWrite) :=
  if fits index then some [FileWrite.whole index]
  else writeChunkedSearchIndex fits fuel "chunk" index

/-- The chunk names listed in the last metadata write of a write list, the
content of the metadata file on disk after the run. -/
def finalMetaChunks (ws : List FileWrite) : Option (List String) :=
  (ws.reverse.find? (fun w =>
    match w with
    | FileWrite.meta _ _ _ => true
    | _ => false)).bind (fun w =>
      match w with
      | FileWrite.meta cs _ _ => some cs
      | _ => none)

/-- The names of the chunk files actually written. -/
def chunkFilesWritten (ws : List FileWrite) : List String :=
  ws.filterMap (fun w =>
    match w with
    | FileWrite.chunk n _ => some n
    | _ => none)

theorem takeWhile_append_of_all {α : Type} (p : α → Bool) (l1 l2 : List α)
    (h : ∀ a ∈ l1, p a = true) :
    (l1 ++ l2).takeWhile p = l1 ++ l2.takeWhile p := by
  induction l1 with
  | nil => simp
  | cons a l ih =>
      have ha : p a = true := h a (by simp)
      simp only [List.cons_append, List.takeWhile_cons, ha, if_true]
      rw [ih (fun b hb => h b (by simp [hb]))]

theorem digitChar_isDigit {m : Nat} (h : m < 10) :
    (Nat.digitChar m).isDigit = true := by
  interval_cases m <;> decide

theorem toDigitsCore_isDigit :
    ∀ (fuel n : Nat) (acc : List Char), (∀ c ∈ acc, c.isDigit = true) →
      ∀ c ∈ Nat.toDigitsCore 10 fuel n acc, c.isDigit = true := by
  intro fuel
  induction fuel with
  | zero => intro n acc hacc c hc; exact hacc c hc
  | succ fuel ih =>
      intro n acc hacc c hc
      have hcons : ∀ x ∈ Nat.digitChar (n % 10) :: acc, x.isDigit = true := by
        intro x hx
        rcases List.mem_cons.mp hx with h | h
        · subst h; exact digitChar_isDigit (Nat.mod_lt _ (by omega))
        · exact hacc x h
      rw [Nat.toDigitsCore] at hc
      split at hc
      · exact hcons c hc
      · exact ih (n / 10) _ hcons c hc

theorem natRepr_isDigit (n : Nat) : ∀ c ∈ (Nat.repr n).data, c.isDigit = true := by
  intro c hc
  exact toDigitsCore_isDigit (n + 1) n [] (by intro x hx; cases hx) c hc

theorem isDigit_ne_hash {c : Char} (h : c.isDigit = true) : (c = '#') = False := by
  simp only [eq_iff_iff, iff_false]
  intro hc
  subst hc
  exact absurd h (by decide)

/-- An href whose character data ends in a dash, the letter L and digits can
never match the numeric-fragment pattern again: the segment after the last
hash contains the dash, hence is not all digits. -/
theorem matchAgdaHref_dashL (s : String) (u ds : List Char)
    (hs : s.data = u ++ '-' :: 'L' :: ds)
    (hds : ∀ c ∈ ds, c.isDigit = true) : matchAgdaHref s = none := by
  unfold matchAgdaHref
  simp only [hs]
  by_cases hmem : (u ++ '-' :: 'L' :: ds).contains '#'
  · rw [if_pos hmem]
    have hfrag : afterLastHash (u ++ '-' :: 'L' :: ds) =
        ((u.reverse.takeWhile (fun c => !(c = '#'))).reverse) ++ '-' :: 'L' :: ds := by
      unfold afterLastHash
      rw [List.reverse_append]
      have h1 : ('-' :: 'L' :: ds).reverse = ds.reverse ++ ['L', '-'] := by simp
      rw [h1, List.append_assoc]
      rw [takeWhile_append_of_all _ ds.reverse _ (by
        intro c hc
        have := hds c (List.mem_reverse.mp hc)
        simp [isDigit_ne_hash this])]
      have h2 : List.takeWhile (fun c => !(c = '#')) (['L', '-'] ++ u.reverse) =
          'L' :: '-' :: List.takeWhile (fun c => !(c = '#')) u.reverse := by
        simp [List.takeWhile_cons]
      rw [h2]
      rw [List.reverse_append]
      simp
    rw [hfrag]
    have hnd : ((((u.reverse.takeWhile (fun c => !(c = '#'))).reverse) ++
        '-' :: 'L' :: ds).all Char.isDigit) = false := by
      apply List.all_eq_false.mpr
      exact ⟨'-', by simp, by decide⟩
    simp [hnd]
  · rw [if_neg hmem]

theorem strdata_hash (bid : String) (L : Nat) :
    ("#" ++ bid ++ "-L" ++ Nat.repr L).data =
      ('#' :: bid.data) ++ '-' :: 'L' :: (Nat.repr L).data := by
  simp [String.data_append]

/-- C5: an element rewritten by the link rewriter (same-document or
cross-document) gets an href that no longer matches the numeric-fragment
pattern, so a second pass over it, whatever mapping table and block state it
runs with, returns the element unchanged, touches no block, and reports no
diagnostic. -/
theorem transformAgdaLinks_idempotent
    (mm : PositionMappings) (cf : String) (blocks : List CodeBlock) (ll : LocatedLink)
    (hrew : (transformOneLink mm cf blocks ll).1.link.href ≠ ll.link.href) :
    matchAgdaHref (transformOneLink mm cf blocks ll).1.link.href = none ∧
    ∀ (mm2 : PositionMappings) (cf2 : String) (blocks2 : List CodeBlock),
      transformOneLink mm2 cf2 blocks2 (transformOneLink mm cf blocks ll).1 =
        ((transformOneLink mm cf blocks ll).1, blocks2, none) := by
  have hnomatch : ∀ (l : LocatedLink), matchAgdaHref l.link.href = none →
      ∀ mm2 cf2 blocks2, transformOneLink mm2 cf2 blocks2 l = (l, blocks2, none) := by
    intro l hl mm2 cf2 blocks2
    simp [transformOneLink, hl]
  suffices h : matchAgdaHref (transformOneLink mm cf blocks ll).1.link.href = none by
    exact ⟨h, fun mm2 cf2 blocks2 => hnomatch _ h mm2 cf2 blocks2⟩
  cases hm : matchAgdaHref ll.link.href with
  | none =>
      exfalso; apply hrew
      simp [transformOneLink, hm]
  | some fppos =>
      obtain ⟨fp, pos⟩ := fppos
      by_cases hfp : fp = ""
      · subst hfp
        cases hl : truthyLookup (currentMappings mm cf) pos with
        | none =>
            exfalso; apply hrew
            simp [transformOneLink, hm, hl]
        | some L =>
            have hres : (transformOneLink mm cf blocks ll).1.link.href =
                "#" ++ (match findCodeBlockContainingPosition blocks pos with
                        | some b => b.id
                        | none => "B1") ++ "-L" ++ Nat.repr L := by
              simp [transformOneLink, hm, hl]
            rw [hres]
            exact matchAgdaHref_dashL _ _ _ (strdata_hash _ L) (natRepr_isDigit L)
      · cases hsub : mm.lookup fp with
        | none =>
            exfalso; apply hrew
            simp [transformOneLink, hm, hfp, hsub]
        | some sub =>
            cases hl : truthyLookup sub pos with
            | none =>
                exfalso; apply hrew
                simp [transformOneLink, hm, hfp, hsub, hl]
            | some L =>
                have hres : (transformOneLink mm cf blocks ll).1.link.href =
                    fp ++ "#B1-L" ++ Nat.repr L := by
                  simp [transformOneLink, hm, hfp, hsub, hl]
                rw [hres]
                apply matchAgdaHref_dashL _ (fp.data ++ ['#', 'B', '1']) (Nat.repr L).data
                · simp [String.data_append]
                · exact natRepr_isDigit L

/-- Witness for C5 at a concrete rewritten link. -/
theorem transformAgdaLinks_idempotent_witness :
    matchAgdaHref (transformOneLink [("D.html", [("100", 3)])] "D.html"
      [⟨"B1", [], []⟩, ⟨"B2", ["100"], []⟩]
      ⟨{ href := "#100", text := "t" }, some 0⟩).1.link.href = none ∧
    transformOneLink [] "" []
      (transformOneLink [("D.html", [("100", 3)])] "D.html"
        [⟨"B1", [], []⟩, ⟨"B2", ["100"], []⟩]
        ⟨{ href := "#100", text := "t" }, some 0⟩).1 =
      ((transformOneLink [("D.html", [("100", 3)])] "D.html"
        [⟨"B1", [], []⟩, ⟨"B2", ["100"], []⟩]
        ⟨{ href := "#100", text := "t" }, some 0⟩).1, [], none) :=
  ⟨(transformAgdaLinks_idempotent [("D.html", [("100", 3)])] "D.html"
      [⟨"B1", [], []⟩, ⟨"B2", ["100"], []⟩]
      ⟨{ href := "#100", text := "t" }, some 0⟩ (by decide)).1,
   (transformAgdaLinks_idempotent [("D.html", [("100", 3)])] "D.html"
      [⟨"B1", [], []⟩, ⟨"B2", ["100"], []⟩]
      ⟨{ href := "#100", text := "t" }, some 0⟩ (by decide)).2 [] "" []⟩

/-- C1 counterexample: a two-region document in which anchor 100 lies only in
the second region (id B2) at line 3, and two same-document links to hash 100
that both sit inside code regions. The first link resolves to the true region
B2, but its rewrite stores data-position 100 inside the first region, so the
second link to the same anchor resolves to B1 even though the search did not
fail and the anchor lies in B2. -/
theorem transformAgdaLinks_block_resolution_cex :
    (([⟨"B1", [], []⟩, ⟨"B2", ["100"], []⟩] : List CodeBlock).map
        CodeBlock.anchorIds = [[], ["100"]]) ∧
    1 < ([⟨"B1", [], []⟩, ⟨"B2", ["100"], []⟩] : List CodeBlock).length ∧
    List.lookup "100" [("100", 3)] = some 3 ∧
    ((transformAgdaLinks [("D.html", [("100", 3)])] "D.html"
        [⟨"B1", [], []⟩, ⟨"B2", ["100"], []⟩]
        [⟨{ href := "#100", text := "u1" }, some 0⟩,
         ⟨{ href := "#100", text := "u2" }, none⟩]).1.map
      (fun l => l.link.href)) = ["#B2-L3", "#B1-L3"] ∧
    ("#B1-L3" : String) ≠ "#B2-L3" := by
  refine ⟨rfl, by decide, by decide, by decide, by decide⟩

/-- C1 (amended): a same-document hit with more than one region rewrites the
href to the id of the first region that, in the block state current when the
link is processed, contains an element whose id or data-position attribute
equals the anchor; when no region contains such an element the first region
(id B1) is used. For the first link referencing an anchor this is the region
actually containing the anchor; later links can inherit the region of an
earlier rewritten link through its data-position attribute. -/
theorem transformAgdaLinks_sameDoc_block_resolution
    (mm : PositionMappings) (cf : String) (blocks : List CodeBlock) (ll : LocatedLink)
    (pos : String) (L : Nat)
    (hm : matchAgdaHref ll.link.href = some ("", pos))
    (hL : truthyLookup (currentMappings mm cf) pos = some L)
    (hmulti : 1 < blocks.length) :
    (∀ b : CodeBlock, blocks.find? (blockContains pos) = some b →
      (transformOneLink mm cf blocks ll).1.link.href = "#" ++ b.id ++ "-L" ++ Nat.repr L) ∧
    (blocks.find? (blockContains pos) = none →
      (transformOneLink mm cf blocks ll).1.link.href =
        "#" ++ (blocks.headD ⟨"B1", [], []⟩).id ++ "-L" ++ Nat.repr L) := by
  have hlen : ¬ blocks.length ≤ 1 := by omega
  constructor
  · intro b hb
    simp [transformOneLink, hm, hL, findCodeBlockContainingPosition, hlen, hb]
  · intro hb
    simp [transformOneLink, hm, hL, findCodeBlockContainingPosition, hlen, hb]
    cases blocks with
    | nil => simp at hmulti
    | cons x xs => simp

/-- Witness for the amended C1: the anchor-bearing second region resolves as
the target of the rewrite. -/
theorem transformAgdaLinks_sameDoc_block_resolution_witness :
    (transformOneLink [("D.html", [("100", 3)])] "D.html"
      [⟨"B1", [], []⟩, ⟨"B2", ["100"], []⟩]
      ⟨{ href := "#100", text := "u1" }, some 0⟩).1.link.href = "#B2-L3" :=
  (transformAgdaLinks_sameDoc_block_resolution
    [("D.html", [("100", 3)])] "D.html"
    [⟨"B1", [], []⟩, ⟨"B2", ["100"], []⟩]
    ⟨{ href := "#100", text := "u1" }, some 0⟩ "100" 3
    (by decide) (by decide) (by decide)).1 ⟨"B2", ["100"], []⟩ (by decide)

/-- C2: a cross-document hit rewrites the href to the target file, the
constant block id B1 and the mapped line, reports no diagnostic, and produces
the same element whatever the block state is, so no cross-document block
resolution is ever attempted. -/
theorem transformAgdaLinks_crossDoc_alwaysB1
    (mm : PositionMappings) (cf : String) (blocks : List CodeBlock) (ll : LocatedLink)
    (tf pos : String) (sub : SubMapping) (L : Nat)
    (hm : matchAgdaHref ll.link.href = some (tf, pos)) (htf : tf ≠ "")
    (hsub : mm.lookup tf = some sub) (hL : truthyLookup sub pos = some L) :
    (transformOneLink mm cf blocks ll).1.link.href = tf ++ "#B1-L" ++ Nat.repr L ∧
    (transformOneLink mm cf blocks ll).2.2 = none ∧
    ∀ blocks2 : List CodeBlock,
      (transformOneLink mm cf blocks2 ll).1 = (transformOneLink mm cf blocks ll).1 := by
  refine ⟨?_, ?_, ?_⟩
  · simp [transformOneLink, hm, htf, hsub, hL]
  · simp [transformOneLink, hm, htf, hsub, hL]
  · intro blocks2
    simp [transformOneLink, hm, htf, hsub, hL]

/-- Witness for C2 at the mapping of the spec scenario. -/
theorem transformAgdaLinks_crossDoc_alwaysB1_witness :
    (transformOneLink [("A.html", [("42", 5)])] "C.html"
      [⟨"B1", [], []⟩, ⟨"B2", ["42"], []⟩]
      ⟨{ href := "A.html#42", text := "t" }, none⟩).1.link.href = "A.html#B1-L5" :=
  (transformAgdaLinks_crossDoc_alwaysB1 [("A.html", [("42", 5)])] "C.html"
    [⟨"B1", [], []⟩, ⟨"B2", ["42"], []⟩]
    ⟨{ href := "A.html#42", text := "t" }, none⟩ "A.html" "42" [("42", 5)] 5
    (by decide) (by decide) (by decide) (by decide)).1

/-- C8: a link whose href carries an all-numeric fragment with no usable
mapping entry (same-document miss, unknown target document, or
cross-document miss) is left byte-identical, the block state is untouched,
and exactly one diagnostic is produced, carrying the original href and the
visible text of the element (with the literal placeholder when the text is
empty); diagnostics are data, nothing is thrown. -/
theorem transformAgdaLinks_unmapped_diagnostic
    (mm : PositionMappings) (cf : String) (blocks : List CodeBlock) (ll : LocatedLink)
    (fp pos : String)
    (hm : matchAgdaHref ll.link.href = some (fp, pos))
    (hmiss : (fp = "" ∧ truthyLookup (currentMappings mm cf) pos = none) ∨
             (fp ≠ "" ∧ mm.lookup fp = none) ∨
             (fp ≠ "" ∧ ∃ sub, mm.lookup fp = some sub ∧ truthyLookup sub pos = none)) :
    transformOneLink mm cf blocks ll =
      (ll, blocks, some ⟨ll.link.href,
        if ll.link.text = "" then "[No text content]" else ll.link.text, ll.link⟩) := by
  rcases hmiss with ⟨hfp, hl⟩ | ⟨hfp, hsub⟩ | ⟨hfp, sub, hsub, hl⟩
  · subst hfp
    simp [transformOneLink, hm, hl, mkUnmapped]
  · simp [transformOneLink, hm, hfp, hsub, mkUnmapped]
  · simp [transformOneLink, hm, hfp, hsub, hl, mkUnmapped]

/-- Witness for C8 at an unmapped same-document anchor. -/
theorem transformAgdaLinks_unmapped_diagnostic_witness :
    transformOneLink [("D.html", [("100", 3)])] "D.html" [⟨"B1", [], []⟩]
      ⟨{ href := "#999", text := "ref" }, none⟩ =
      (⟨{ href := "#999", text := "ref" }, none⟩, [⟨"B1", [], []⟩],
        some ⟨"#999", "ref", { href := "#999", text := "ref" }⟩) := by
  have h := transformAgdaLinks_unmapped_diagnostic [("D.html", [("100", 3)])] "D.html"
    [⟨"B1", [], []⟩] ⟨{ href := "#999", text := "ref" }, none⟩ "" "999"
    (by decide) (Or.inl ⟨rfl, by decide⟩)
  simpa using h

def appendStep {α β : Type} (g : α → Option β) (t : List β) (f : α) : List β :=
  match g f with
  | none => t
  | some x => t ++ [x]

theorem foldl_appendStep {α β : Type} (g : α → Option β) :
    ∀ (l : List α) (acc : List β),
      l.foldl (appendStep g) acc = acc ++ l.filterMap g := by
  intro l
  induction l with
  | nil => intro acc; simp
  | cons a l ih =>
      intro acc
      cases hg : g a with
      | none => simp [List.foldl_cons, appendStep, hg, ih, List.filterMap_cons]
      | some x => simp [List.foldl_cons, appendStep, hg, ih, List.filterMap_cons]

theorem lookup_keyed_filterMap_of_not_mem {β : Type} (v : String → Option β)
    (files : List String) (f : String) (hf : f ∉ files) :
    (files.filterMap (fun x => (v x).map (fun y => (x, y)))).lookup f = none := by
  induction files with
  | nil => rfl
  | cons a l ih =>
      have hne : f ≠ a := by
        intro h; exact hf (by simp [h])
      have hfl : f ∉ l := fun h => hf (by simp [h])
      cases hv : v a with
      | none => simp [List.filterMap_cons, hv, ih hfl]
      | some y =>
          simp only [List.filterMap_cons, hv, Option.map_some']
          rw [List.lookup_cons]
          have hbeq : (f == a) = false := by
            simp [beq_iff_eq]; exact hne
          rw [hbeq]
          exact ih hfl

theorem lookup_keyed_filterMap {β : Type} (v : String → Option β)
    (files : List String) (hnd : files.Nodup) (f : String) (hf : f ∈ files) :
    (files.filterMap (fun x => (v x).map (fun y => (x, y)))).lookup f = v f := by
  induction files with
  | nil => cases hf
  | cons a l ih =>
      have hndl : l.Nodup := (List.nodup_cons.mp hnd).2
      have hal : a ∉ l := (List.nodup_cons.mp hnd).1
      rcases List.mem_cons.mp hf with h | h
      · subst h
        cases hv : v f with
        | none =>
            simp only [List.filterMap_cons, hv, Option.map_none']
            rw [lookup_keyed_filterMap_of_not_mem v l f hal]
        | some y =>
            simp only [List.filterMap_cons, hv, Option.map_some']
            rw [List.lookup_cons]
            have hbeq : (f == f) = true := by simp
            rw [hbeq]
      · have hne : f ≠ a := fun hh => hal (hh ▸ h)
        cases hv : v a with
        | none => simp [List.filterMap_cons, hv, ih hndl h]
        | some y =>
            simp only [List.filterMap_cons, hv, Option.map_some']
            rw [List.lookup_cons]
            have hbeq : (f == a) = false := by
              simp [beq_iff_eq]; exact hne
            rw [hbeq]
            exact ih hndl h

theorem buildPositionMappings_lookup {α : Type} (files : List String)
    (readParse : String → Option α) (extract : α → SubMapping)
    (hnd : files.Nodup) (f : String) (hf : f ∈ files) :
    (buildPositionMappings files readParse extract).lookup f =
      (readParse f).map extract := by
  have hfun : (fun (table : PositionMappings) f =>
      match readParse f with
      | none => table
      | some d => table ++ [(f, extract d)]) =
      appendStep (fun w => ((readParse w).map extract).map (fun y => (w, y))) := by
    funext t w
    cases hrp : readParse w <;> simp [appendStep, hrp]
  unfold buildPositionMappings
  rw [hfun, foldl_appendStep]
  simp only [List.nil_append]
  exact lookup_keyed_filterMap (fun w => (readParse w).map extract) files hnd f hf

theorem buildSearchIndex_lookup (readParse : String → Option HtmlDoc)
    (mappings : PositionMappings) (files : List String)
    (hnd : files.Nodup) (f : String) (hf : f ∈ files) :
    (buildSearchIndex readParse mappings files).lookup f =
      (if 0 < (extractSearchEntriesFromFile readParse f
          ((mappings.lookup f).getD [])).length then
        some (extractSearchEntriesFromFile readParse f ((mappings.lookup f).getD []))
      else none) := by
  have hfun : (fun (index : List (String × List SearchEntry)) file =>
      let entries := extractSearchEntriesFromFile readParse file
        ((mappings.lookup file).getD [])
      if 0 < entries.length then index ++ [(file, entries)] else index) =
      appendStep (fun w =>
        ((if 0 < (extractSearchEntriesFromFile readParse w
            ((mappings.lookup w).getD [])).length then
          some (extractSearchEntriesFromFile readParse w ((mappings.lookup w).getD []))
        else none)).map (fun y => (w, y))) := by
    funext t w
    by_cases h : 0 < (extractSearchEntriesFromFile readParse w
        ((mappings.lookup w).getD [])).length <;> simp [appendStep, h]
  unfold buildSearchIndex
  rw [hfun, foldl_appendStep]
  simp only [List.nil_append]
  exact lookup_keyed_filterMap (fun w =>
    (if 0 < (extractSearchEntriesFromFile readParse w
        ((mappings.lookup w).getD [])).length then
      some (extractSearchEntriesFromFile readParse w ((mappings.lookup w).getD []))
    else none)) files hnd f hf

/-- C3: in the per-file try/catch version of buildPositionMappings, a
document whose read or parse fails is caught and skipped: it gets no entry in
the table, so its effective sub-map is empty, while every document that reads
successfully, before or after the failure, still gets exactly its extracted
sub-mapping. -/
theorem buildPositionMappings_error_isolation {α : Type} (files : List String)
    (readParse : String → Option α) (extract : α → SubMapping)
    (hnd : files.Nodup) (f : String) (hf : f ∈ files) :
    (readParse f = none →
      (buildPositionMappings files readParse extract).lookup f = none ∧
      ((buildPositionMappings files readParse extract).lookup f).getD [] = []) ∧
    (∀ d, readParse f = some d →
      (buildPositionMappings files readParse extract).lookup f =
        some (extract d)) := by
  have key := buildPositionMappings_lookup files readParse extract hnd f hf
  constructor
  · intro hfail
    rw [key, hfail]
    exact ⟨rfl, rfl⟩
  · intro d hd
    rw [key, hd]
    rfl

/-- Witness for C3: the middle document of three fails, the other two keep
their extracted mappings. -/
theorem buildPositionMappings_error_isolation_witness :
    (buildPositionMappings ["a.html", "b.html", "c.html"]
      (fun f => if f = "b.html" then none else some f)
      (fun f => [(f, 1)])).lookup "b.html" = none ∧
    (buildPositionMappings ["a.html", "b.html", "c.html"]
      (fun f => if f = "b.html" then none else some f)
      (fun f => [(f, 1)])).lookup "c.html" = some [("c.html", 1)] :=
  ⟨((buildPositionMappings_error_isolation ["a.html", "b.html", "c.html"]
      (fun f => if f = "b.html" then none else some f) (fun f => [(f, 1)])
      (by decide) "b.html" (by decide)).1 (by decide)).1,
   (buildPositionMappings_error_isolation ["a.html", "b.html", "c.html"]
      (fun f => if f = "b.html" then none else some f) (fun f => [(f, 1)])
      (by decide) "c.html" (by decide)).2 "c.html" (by decide)⟩

/-- C10: a document read and parsed without error yields an entry list whose
head is the module entry named after the file without its extension; the list
is therefore nonempty and the document appears in the built index, while a
document whose extraction fails yields the empty list and is omitted. -/
theorem extractSearchEntries_module_first (readParse : String → Option HtmlDoc)
    (mappings : PositionMappings) (files : List String)
    (hnd : files.Nodup) (f : String) (hf : f ∈ files) :
    (∀ d, readParse f = some d →
      extractSearchEntriesFromFile readParse f ((mappings.lookup f).getD []) =
        { type := EntryType.module, content := moduleNameOf f } ::
          ((d.blocks.map (extractBlockEntries ((mappings.lookup f).getD []))).flatten ++
            d.headers.filterMap headerEntry) ∧
      (buildSearchIndex readParse mappings files).lookup f =
        some (extractSearchEntriesFromFile readParse f
          ((mappings.lookup f).getD []))) ∧
    (readParse f = none →
      (buildSearchIndex readParse mappings files).lookup f = none) := by
  have key := buildSearchIndex_lookup readParse mappings files hnd f hf
  constructor
  · intro d hd
    have hext : extractSearchEntriesFromFile readParse f ((mappings.lookup f).getD []) =
        { type := EntryType.module, content := moduleNameOf f } ::
          ((d.blocks.map (extractBlockEntries ((mappings.lookup f).getD []))).flatten ++
            d.headers.filterMap headerEntry) := by
      unfold extractSearchEntriesFromFile
      rw [hd]
    refine ⟨hext, ?_⟩
    rw [key]
    rw [if_pos (by rw [hext]; simp)]
  · intro hfail
    have hext : extractSearchEntriesFromFile readParse f ((mappings.lookup f).getD []) = [] := by
      unfold extractSearchEntriesFromFile
      rw [hfail]
    rw [key, hext]
    simp

/-- Witness for C10 at a one-block document. -/
theorem extractSearchEntries_module_first_witness :
    (buildSearchIndex
      (fun f => if f = "Good.html" then
        some ⟨[[⟨"B1-LC1", "code", []⟩]], ["Head"]⟩ else none)
      [] ["Good.html", "Bad.html"]).lookup "Good.html" =
      some (extractSearchEntriesFromFile
        (fun f => if f = "Good.html" then
          some ⟨[[⟨"B1-LC1", "code", []⟩]], ["Head"]⟩ else none)
        "Good.html" ((([] : PositionMappings).lookup "Good.html").getD [])) :=
  ((extractSearchEntries_module_first
      (fun f => if f = "Good.html" then
        some ⟨[[⟨"B1-LC1", "code", []⟩]], ["Head"]⟩ else none)
      [] ["Good.html", "Bad.html"] (by decide) "Good.html" (by decide)).1
    ⟨[[⟨"B1-LC1", "code", []⟩]], ["Head"]⟩ (by decide)).2

theorem actualLinesAux_spec (len : Nat) :
    ∀ (xs : List String) (i : Nat), i + xs.length = len →
      actualLinesAux len i xs =
        (if lastBlank xs then xs.dropLast else xs) := by
  intro xs
  induction xs with
  | nil => intro i hi; simp [actualLinesAux, lastBlank]
  | cons x rest ih =>
      intro i hi
      cases rest with
      | nil =>
          have hidx : i = len - 1 := by simp at hi; omega
          by_cases hb : jsTrim x == ""
          · simp [actualLinesAux, hidx, hb, lastBlank]
          · simp [actualLinesAux, hidx, hb, lastBlank]
      | cons y ys =>
          have hidx : (i = len - 1) = False := by
            simp only [List.length_cons] at hi
            simp only [eq_iff_iff, iff_false]
            omega
          have hstep : actualLinesAux len i (x :: y :: ys) =
              x :: actualLinesAux len (i + 1) (y :: ys) := by
            rw [actualLinesAux.eq_def]
            simp only [hidx]
            simp
          rw [hstep, ih (i + 1) (by simp at hi ⊢; omega)]
          have hlast : lastBlank (x :: y :: ys) = lastBlank (y :: ys) := by
            simp [lastBlank]
          rw [hlast]
          by_cases hb : lastBlank (y :: ys)
          · simp [hb]
          · simp [hb]

theorem actualLines_spec (lines : List String) :
    actualLines lines = (if lastBlank lines then lines.dropLast else lines) :=
  actualLinesAux_spec lines.length lines 0 (by simp)

/-- C7: splitting a region's markup drops exactly one trailing segment and
only when it is literally the last segment and trims to empty; every
remaining segment, interior blank lines included, becomes one line numbered
1-based in order with its composite ids, a blank segment being rendered as
the non-breaking-space entity. -/
theorem addLineNumbers_line_splitting (blockId : String) (lines : List String) :
    actualLines lines = (if lastBlank lines then lines.dropLast else lines) ∧
    (addLineNumbersToCodeBlocks blockId lines).length = (actualLines lines).length ∧
    ∀ (i : Nat) (line : String), (actualLines lines)[i]? = some line →
      (addLineNumbersToCodeBlocks blockId lines)[i]? =
        some { lineNum := i + 1,
               lineId := blockId ++ "-L" ++ Nat.repr (i + 1),
               contentId := blockId ++ "-LC" ++ Nat.repr (i + 1),
               content := if jsTrim line == "" then "&nbsp;" else line } := by
  refine ⟨actualLines_spec lines, by simp [addLineNumbersToCodeBlocks], ?_⟩
  intro i line hline
  unfold addLineNumbersToCodeBlocks
  rw [List.getElem?_map, List.getElem?_enum, hline]
  rfl

/-- Witness for C7: a trailing empty segment is dropped, the interior blank
line is kept and rendered as the non-breaking-space entity. -/
theorem addLineNumbers_line_splitting_witness :
    actualLines ["foo", " ", "bar", ""] = ["foo", " ", "bar"] ∧
    (addLineNumbersToCodeBlocks "B1" ["foo", " ", "bar", ""])[1]? =
      some { lineNum := 2, lineId := "B1-L2", contentId := "B1-LC2",
             content := "&nbsp;" } :=
  ⟨((addLineNumbers_line_splitting "B1" ["foo", " ", "bar", ""]).1).trans (by decide),
   (((addLineNumbers_line_splitting "B1" ["foo", " ", "bar", ""]).2.2 1 " "
      (by decide)).trans (by decide))⟩

/-- Modelled from the spec for comparison with the code: the trimmed text of
the nearest line before index i whose trimmed text is non-empty. -/
def nearestNonEmptyBefore (allLines : List CodeLine) (i : Nat) : Option String :=
  ((allLines.take i).reverse.map (fun l => jsTrim l.text)).find? (fun s => !(s = ""))

/-- Modelled from the spec for comparison with the code: the trimmed text of
the nearest line after index i whose trimmed text is non-empty. -/
def nearestNonEmptyAfter (allLines : List CodeLine) (i : Nat) : Option String :=
  ((allLines.drop (i + 1)).map (fun l => jsTrim l.text)).find? (fun s => !(s = ""))

/-- Modelled from the spec for comparison with the code: the context window
the claim describes, joining the nearest non-empty neighbours around line i
with the line's own trimmed text. -/
def specNearestContext (allLines : List CodeLine) (i : Nat) : String :=
  String.intercalate "\n"
    (([(nearestNonEmptyBefore allLines i).getD "",
       jsTrim ((allLines.getD i dummyLine).text),
       (nearestNonEmptyAfter allLines i).getD ""]).filter (fun s => !(s = "")))

/-- The non-empty strings among the trimmed texts of the immediately adjacent
previous line, the line itself and the immediately adjacent next line, the
window the code actually joins. -/
def adjacentContextParts (allLines : List CodeLine) (i : Nat) (line : CodeLine) :
    List String :=
  ([(if 0 < i then jsTrim (allLines.getD (i - 1) dummyLine).text else ""),
    jsTrim line.text,
    (if i < allLines.length - 1 then
      jsTrim (allLines.getD (i + 1) dummyLine).text else "")]).filter
    (fun l => !(l = ""))

/-- C6 counterexample: three lines whose middle one is blank. The code builds
the context of the third line from its immediately adjacent (blank) neighbour
only, producing just the line itself, while the claimed nearest non-empty
neighbour rule would include the first line. -/
theorem searchContext_nearest_cex :
    extractBlockEntries [] [⟨"B1-LC1", "foo", []⟩, ⟨"B1-LC2", " ", []⟩,
        ⟨"B1-LC3", "bar", []⟩] =
      [{ type := EntryType.code, content := "foo", lineNumber := some 1,
         context := some "foo" },
       { type := EntryType.code, content := "bar", lineNumber := some 3,
         context := some "bar" }] ∧
    specNearestContext [⟨"B1-LC1", "foo", []⟩, ⟨"B1-LC2", " ", []⟩,
        ⟨"B1-LC3", "bar", []⟩] 2 = "foo\nbar" ∧
    ("bar" : String) ≠ "foo\nbar" := by
  refine ⟨by decide, by decide, by decide⟩

/-- C6 (amended): the context of a code entry is built from the immediately
adjacent previous and next lines only, each contributing its trimmed text
exactly when that text is non-empty; the window is the newline join of at
most three non-empty strings and always contains the line's own trimmed
text. A non-empty line further away is never consulted. -/
theorem searchContext_adjacent_window (pm : SubMapping) (allLines : List CodeLine)
    (i : Nat) (line : CodeLine) (n : Nat)
    (hid : lineIdToNum line.id = some n) (hne : ¬ jsTrim line.text = "") :
    (entriesForLine pm allLines i line).head? =
      some { type := EntryType.code, content := jsTrim line.text,
             lineNumber := some n,
             context := some (String.intercalate "\n"
               (adjacentContextParts allLines i line)) } ∧
    (adjacentContextParts allLines i line).length ≤ 3 ∧
    (∀ s ∈ adjacentContextParts allLines i line, s ≠ "") ∧
    jsTrim line.text ∈ adjacentContextParts allLines i line := by
  refine ⟨?_, ?_, ?_, ?_⟩
  · simp [entriesForLine, hid, hne, adjacentContextParts]
  · apply le_trans (List.length_filter_le _ _)
    simp [adjacentContextParts]
  · intro s hs
    unfold adjacentContextParts at hs
    have := (List.mem_filter.mp hs).2
    simpa using this
  · unfold adjacentContextParts
    apply List.mem_filter.mpr
    constructor
    · simp
    · simpa using hne

/-- Witness for the amended C6 at the first line of a three-line block. -/
theorem searchContext_adjacent_window_witness :
    (entriesForLine [] [⟨"B1-LC1", "foo", []⟩, ⟨"B1-LC2", " ", []⟩,
        ⟨"B1-LC3", "bar", []⟩] 0 ⟨"B1-LC1", "foo", []⟩).head? =
      some { type := EntryType.code, content := "foo", lineNumber := some 1,
             context := some "foo" } :=
  ((searchContext_adjacent_window [] [⟨"B1-LC1", "foo", []⟩, ⟨"B1-LC2", " ", []⟩,
      ⟨"B1-LC3", "bar", []⟩] 0 ⟨"B1-LC1", "foo", []⟩ 1
      (by decide) (by decide)).1).trans (by decide)

/-- C9 counterexample: the spread copy returned by getGlobalMappings shares
its sub-map objects with the internal table, so mutating a nested sub-map
through the returned copy changes what the indexer's internal table resolves
to. -/
theorem getGlobalMappings_shallow_copy_cex :
    resolveTable (getGlobalMappings ⟨[(1, [("A.html", 0)])], [(0, [("42", 5)])], 2⟩ 1).1 1 =
      [("A.html", [("42", 5)])] ∧
    resolveTable
      (mutateSubEntry (getGlobalMappings ⟨[(1, [("A.html", 0)])], [(0, [("42", 5)])], 2⟩ 1).1
        (getGlobalMappings ⟨[(1, [("A.html", 0)])], [(0, [("42", 5)])], 2⟩ 1).2
        "A.html" "42" 7) 1 =
      [("A.html", [("42", 7)])] ∧
    ([("A.html", [("42", 7)])] : List (String × SubMapping)) ≠
      [("A.html", [("42", 5)])] := by
  refine ⟨by decide, by decide, by decide⟩

theorem lookupObj_updateObj_ne {β : Type} (l : List (Addr × β)) (a b : Addr)
    (f : β → β) (hab : a ≠ b) : lookupObj (updateObj l a f) b = lookupObj l b := by
  induction l with
  | nil => rfl
  | cons p rest ih =>
      obtain ⟨k, v⟩ := p
      have hcons : updateObj ((k, v) :: rest) a f =
          (if k = a then (k, f v) else (k, v)) :: updateObj rest a f := rfl
      rw [hcons]
      unfold lookupObj at ih ⊢
      by_cases hk : k = a
      · subst hk
        rw [if_pos rfl, List.lookup_cons, List.lookup_cons]
        have hbk : (b == k) = false := by
          simp only [beq_eq_false_iff_ne, ne_eq]
          exact fun hh => hab hh.symm
        rw [hbk]
        exact ih
      · rw [if_neg hk, List.lookup_cons, List.lookup_cons]
        cases hbk : (b == k)
        · exact ih
        · rfl

theorem resolveTable_mutateTableKey_ne (h : JSHeap) (t a : Addr) (doc : String)
    (sa : Addr) (hne : t ≠ a) :
    resolveTable (mutateTableKey h t doc sa) a = resolveTable h a := by
  unfold resolveTable mutateTableKey
  simp only
  rw [lookupObj_updateObj_ne h.tables t a _ hne]

/-- C9 (amended): the tables handed across the unit boundary are copied one
level deep. The table object returned by getGlobalMappings, and the internal
table object installed by setGlobalMappings, are fresh, so assigning a
document key on the transferred table never changes what the other side
resolves; but the per-document sub-maps stay shared by reference, so
mutating one of them through the transferred table is visible on the other
side, as the counterexample records. -/
theorem getGlobalMappings_topLevel_copy (h : JSHeap) (g : Addr) (hg : g < h.next)
    (doc : String) (subAddr : Addr) :
    (resolveTable
        (mutateTableKey (getGlobalMappings h g).1 (getGlobalMappings h g).2 doc subAddr)
        g =
      resolveTable (getGlobalMappings h g).1 g) ∧
    (∀ t : Addr, t < h.next →
      resolveTable
          (mutateTableKey (setGlobalMappings h t).1 t doc subAddr)
          (setGlobalMappings h t).2 =
        resolveTable (setGlobalMappings h t).1 (setGlobalMappings h t).2) := by
  constructor
  · exact resolveTable_mutateTableKey_ne (getGlobalMappings h g).1
      (getGlobalMappings h g).2 g doc subAddr (Nat.ne_of_gt hg)
  · intro t ht
    exact resolveTable_mutateTableKey_ne (setGlobalMappings h t).1 t
      (setGlobalMappings h t).2 doc subAddr (Nat.ne_of_lt ht)

/-- Witness for the amended C9 at a concrete one-document heap. -/
theorem getGlobalMappings_topLevel_copy_witness :
    resolveTable
        (mutateTableKey
          (getGlobalMappings ⟨[(1, [("A.html", 0)])], [(0, [("42", 5)])], 2⟩ 1).1
          (getGlobalMappings ⟨[(1, [("A.html", 0)])], [(0, [("42", 5)])], 2⟩ 1).2
          "B.html" 0)
        1 =
      resolveTable (getGlobalMappings ⟨[(1, [("A.html", 0)])], [(0, [("42", 5)])], 2⟩ 1).1 1 :=
  (getGlobalMappings_topLevel_copy ⟨[(1, [("A.html", 0)])], [(0, [("42", 5)])], 2⟩ 1
    (by decide) "B.html" 0).1

theorem chunkAux_flatten :
    ∀ (rest : SearchIndex) (cnt : Nat) (cur : SearchIndex),
      (chunkAux cnt cur rest).flatten = cur.reverse ++ rest := by
  intro rest
  induction rest with
  | nil => intro cnt cur; simp [chunkAux]
  | cons fe rest ih =>
      intro cnt cur
      obtain ⟨f, es⟩ := fe
      rw [chunkAux.eq_def]
      by_cases hc : (cnt < maxEntriesPerChunk &&
          !(decide (maxEntriesPerChunk < cnt + es.length) && !cur.isEmpty)) = true
      · simp only [hc, if_true]
        rw [ih]
        simp
      · simp only [hc, if_false, Bool.false_eq_true]
        simp only [List.flatten_cons]
        rw [ih]
        simp


theorem chunkGroups_flatten (index : SearchIndex) :
    (chunkGroups index).flatten = index := by
  cases index with
  | nil => rfl
  | cons fe rest =>
      unfold chunkGroups
      rw [chunkAux_flatten]
      rfl

theorem chunkGroups_countP (index : SearchIndex)
    (hnd : (index.map Prod.fst).Nodup)
    (p : String × List SearchEntry) (hp : p ∈ index) :
    ((chunkGroups index).map (fun c => c.countP (fun q => decide (q = p)))).sum = 1 := by
  have hpairs : index.Nodup := List.Nodup.of_map Prod.fst hnd
  calc ((chunkGroups index).map (fun c => c.countP (fun q => decide (q = p)))).sum
      = (chunkGroups index).flatten.countP (fun q => decide (q = p)) :=
        (List.countP_flatten _ _).symm
    _ = index.countP (fun q => decide (q = p)) := by rw [chunkGroups_flatten]
    _ = 1 := List.count_eq_one_of_mem hpairs hp

theorem chunkFoldr_all_fits (fits : SearchIndex → Bool) (fuel : Nat)
    (named : List (String × SearchIndex)) (hfit : ∀ nc ∈ named, fits nc.2 = true) :
    named.foldr (fun nc acc =>
      acc.bind (fun ws =>
        if fits nc.2 then some (FileWrite.chunk nc.1 nc.2 :: ws)
        else
          (writeChunkedSearchIndex fits fuel nc.1 nc.2).map
            (fun ws1 => ws1 ++ ws))) (some []) =
      some (named.map (fun nc => FileWrite.chunk nc.1 nc.2)) := by
  induction named with
  | nil => rfl
  | cons nc rest ih =>
      rw [List.foldr_cons, ih (fun x hx => hfit x (by simp [hx]))]
      rw [Option.some_bind]
      rw [if_pos (hfit nc (by simp))]
      rfl

theorem writeChunked_all_fits (fits : SearchIndex → Bool) (fuel : Nat)
    (pre : String) (index : SearchIndex)
    (hfit : ∀ nc ∈ namedChunks pre index, fits nc.2 = true) :
    writeChunkedSearchIndex fits (fuel + 1) pre index =
      some (FileWrite.meta ((namedChunks pre index).map Prod.fst)
          index.length (totalEntries index) ::
        (namedChunks pre index).map (fun nc => FileWrite.chunk nc.1 nc.2)) := by
  rw [writeChunkedSearchIndex]
  rw [chunkFoldr_all_fits fits fuel (namedChunks pre index) hfit]
  rfl

theorem namedChunks_snd_mem (pre : String) (index : SearchIndex)
    (nc : String × SearchIndex) (h : nc ∈ namedChunks pre index) :
    nc.2 ∈ chunkGroups index := by
  unfold namedChunks at h
  obtain ⟨p, hp, rfl⟩ := List.mem_map.mp h
  exact List.getElem?_mem (List.mem_enum_iff_getElem?.mp hp)

theorem chunkFilesWritten_meta_cons (cs : List String) (a b : Nat)
    (named : List (String × SearchIndex)) :
    chunkFilesWritten (FileWrite.meta cs a b ::
        named.map (fun nc => FileWrite.chunk nc.1 nc.2)) =
      named.map Prod.fst := by
  unfold chunkFilesWritten
  rw [List.filterMap_cons]
  simp only
  induction named with
  | nil => rfl
  | cons nc rest ih =>
      simp only [List.map_cons, List.filterMap_cons] at ih ⊢
      rw [ih]

theorem finalMetaChunks_meta_cons (cs : List String) (a b : Nat)
    (named : List (String × SearchIndex)) :
    finalMetaChunks (FileWrite.meta cs a b ::
        named.map (fun nc => FileWrite.chunk nc.1 nc.2)) = some cs := by
  unfold finalMetaChunks
  have hnone : ((named.map (fun nc => FileWrite.chunk nc.1 nc.2)).reverse.find?
      (fun w => match w with
        | FileWrite.meta _ _ _ => true
        | _ => false)) = none := by
    apply List.find?_eq_none.mpr
    intro x hx
    obtain ⟨nc, _, rfl⟩ := List.mem_map.mp (List.mem_reverse.mp hx)
    simp
  rw [List.reverse_cons, List.find?_append, hnone]
  rfl

set_option maxRecDepth 100000 in
/-- C4 counterexample: a search index holding a single document whose 1001
entries exceed the per-chunk cap of 1000, with serialization succeeding. The
document is not recursed into as its own sub-index: it is placed whole into
the single chunk named chunk-0 and written as one chunk file, with no
sub-chunk group produced. -/
theorem writeChunkedSearchIndex_oversize_doc_cex :
    1000 < (List.replicate 1001
      ({ type := EntryType.code, content := "x" } : SearchEntry)).length ∧
    writeChunkedSearchIndex (fun _ => true) 1 "chunk"
        [("A.html", List.replicate 1001
          ({ type := EntryType.code, content := "x" } : SearchEntry))] =
      some [FileWrite.meta ["chunk-0"] 1 1001,
        FileWrite.chunk "chunk-0"
          [("A.html", List.replicate 1001
            ({ type := EntryType.code, content := "x" } : SearchEntry))]] := by
  constructor
  · simp
  · decide

/-- C4 (amended): the chunk partition keeps every document's entry list whole
inside exactly one chunk, even when the document alone exceeds the cap (a
document is never split and never recursed into merely for exceeding the
cap; recursion happens only when serializing a chunk fails); the
concatenation of the chunks is the unchunked index, each index pair occurs in
exactly one chunk, and when every chunk serializes the metadata manifest
lists exactly the chunk files written. -/
theorem writeChunkedSearchIndex_roundtrip (index : SearchIndex)
    (fits : SearchIndex → Bool) (fuel : Nat)
    (hnd : (index.map Prod.fst).Nodup)
    (hfit : ∀ c ∈ chunkGroups index, fits c = true) :
    (chunkGroups index).flatten = index ∧
    (∀ p ∈ index,
      ((chunkGroups index).map (fun c => c.countP (fun q => decide (q = p)))).sum = 1) ∧
    ∃ ws, writeChunkedSearchIndex fits (fuel + 1) "chunk" index = some ws ∧
      finalMetaChunks ws = some (chunkFilesWritten ws) ∧
      chunkFilesWritten ws = (namedChunks "chunk" index).map Prod.fst := by
  refine ⟨chunkGroups_flatten index, fun p hp => chunkGroups_countP index hnd p hp, ?_⟩
  refine ⟨_, writeChunked_all_fits fits fuel "chunk" index
    (fun nc hnc => hfit nc.2 (namedChunks_snd_mem "chunk" index nc hnc)), ?_, ?_⟩
  · rw [chunkFilesWritten_meta_cons, finalMetaChunks_meta_cons]
  · rw [chunkFilesWritten_meta_cons]

/-- Witness for the amended C4 at a two-document index. -/
theorem writeChunkedSearchIndex_roundtrip_witness :
    (chunkGroups [("A.html", [({ type := EntryType.code, content := "x" } : SearchEntry)]),
        ("B.html", [({ type := EntryType.code, content := "x" } : SearchEntry)])]).flatten =
      [("A.html", [({ type := EntryType.code, content := "x" } : SearchEntry)]),
        ("B.html", [({ type := EntryType.code, content := "x" } : SearchEntry)])] ∧
    ((chunkGroups [("A.html", [({ type := EntryType.code, content := "x" } : SearchEntry)]),
        ("B.html", [({ type := EntryType.code, content := "x" } : SearchEntry)])]).map
      (fun c => c.countP (fun q => decide (q =
        ("A.html", [({ type := EntryType.code, content := "x" } : SearchEntry)]))))).sum = 1 :=
  ⟨(writeChunkedSearchIndex_roundtrip
      [("A.html", [({ type := EntryType.code, content := "x" } : SearchEntry)]),
        ("B.html", [({ type := EntryType.code, content := "x" } : SearchEntry)])]
      (fun _ => true) 0 (by decide) (fun c _ => rfl)).1,
   (writeChunkedSearchIndex_roundtrip
      [("A.html", [({ type := EntryType.code, content := "x" } : SearchEntry)]),
        ("B.html", [({ type := EntryType.code, content := "x" } : SearchEntry)])]
      (fun _ => true) 0 (by decide) (fun c _ => rfl)).2.1
    ("A.html", [({ type := EntryType.code, content := "x" } : SearchEntry)]) (by decide)⟩
